import Mathlib

/-!
Verification of the absence-seizure feature-extraction engine
(feature_extraction.py of danjjl/kjaer2017).

The embedding below translates feature_extraction.py into Lean.
Floating-point numbers are modelled by real numbers, numpy arrays by
lists of reals.  The numerical-library calls made by the source
(numpy.convolve, numpy.correlate, numpy.var, scipy.signal.firwin,
scipy.signal.hilbert, scipy.spatial.distance.mahalanobis, pywt.wavedec)
are modelled by their documented semantics for the exact arguments the
source passes.  Two of those calls do not do what the surrounding
docstrings say: scipy.signal.firwin is called without pass_zero := false,
so it designs band-stop kernels, and pywt.wavedec is called as
wavedec(data, db4, 5), whose third positional parameter is the extension
mode, not the level — the integer 5 selects the periodization mode and
the level defaults to the data-dependent dwt_max_level(len(data), 8).
The embedding follows the code, not the docstrings.
-/

set_option maxHeartbeats 1000000

noncomputable section

namespace Kjaer

/-- Full discrete convolution, modelling numpy.convolve in its default
full mode: the output has length a.length + v.length - 1 and entry t is
the sum over i of a i * v (t - i), out-of-range samples reading 0. -/
def np_convolve (a v : List ℝ) : List ℝ :=
  (List.range (a.length + v.length - 1)).map fun t =>
    ((List.range (t + 1)).map fun i => a.getD i 0 * v.getD (t - i) 0).sum

/-- Normalised sinc function used by the scipy windowed-FIR design. -/
def sinc (x : ℝ) : ℝ := if x = 0 then 1 else Real.sin (Real.pi * x) / (Real.pi * x)

/-- Symmetric Hamming window of length numtaps at index i, as produced by
scipy get_window for firwin. -/
def hamming (numtaps i : ℕ) : ℝ :=
  0.54 - 0.46 * Real.cos (2 * Real.pi * (i : ℝ) / ((numtaps : ℝ) - 1))

/-- Band edges, normalised to the Nyquist frequency fs/2, that
scipy.signal.firwin uses for a two-element cutoff list [f1, f2] under its
default pass_zero = True: scipy prepends 0 and appends 1 to the normalised
cutoffs, giving the two bands [0, f1/(fs/2)] and [f2/(fs/2), 1]. -/
def firwin_band_edges (f1 f2 fs : ℝ) : List (ℝ × ℝ) :=
  [(0, f1 / (fs / 2)), (f2 / (fs / 2), 1)]

/-- Band edges that the specification's words describe for the same call:
a single pass-band [f1, f2], normalised to the Nyquist frequency.  This
definition follows the spec's words (a band-pass design), for comparison
with firwin_band_edges, which follows the library semantics of the call
made by the source. -/
def bandpass_band_edges (f1 f2 fs : ℝ) : List (ℝ × ℝ) :=
  [(f1 / (fs / 2), f2 / (fs / 2))]

/-- Taps of scipy.signal.firwin numtaps [f1, f2] fs with the defaults the
source relies on: Hamming window, pass_zero = True and scale = True.  Each
tap is a windowed sum of sinc differences over the bands; the scale step
divides by the window response at frequency 0 (the scale frequency, since
the first band contains 0). -/
def firwin (numtaps : ℕ) (f1 f2 fs : ℝ) : List ℝ :=
  let m : ℕ → ℝ := fun i => (i : ℝ) - ((numtaps : ℝ) - 1) / 2
  let bands := firwin_band_edges f1 f2 fs
  let h : ℕ → ℝ := fun i =>
    (bands.map fun b => b.2 * sinc (b.2 * m i) - b.1 * sinc (b.1 * m i)).sum
  let hw : ℕ → ℝ := fun i => h i * hamming numtaps i
  let s : ℝ := ((List.range numtaps).map hw).sum
  (List.range numtaps).map fun i => hw i / s

/-- The band-limited intermediate signal
numpy.convolve data (scipy.signal.firwin 467 [1, 30] fs := 128)
computed at the top of feature_extraction. -/
def data_bp1_30 (data : List ℝ) : List ℝ := np_convolve data (firwin 467 1 30 128)

/-- The band-limited intermediate signal
numpy.convolve data (scipy.signal.firwin 467 [3, 12] fs := 128)
computed at the top of feature_extraction. -/
def data_bp3_12 (data : List ℝ) : List ℝ := np_convolve data (firwin 467 3 12 128)

/-- Decomposition low-pass filter of the Daubechies-4 wavelet, with the
double-precision constants pywt stores for db4. -/
def db4_dec_lo : List ℝ :=
  [-0.010597401784997278, 0.032883011666982945, 0.030841381835986965,
   -0.18703481171888114, -0.02798376941698385, 0.6308807679295904,
   0.7148465705525415, 0.23037781330885523]

/-- Decomposition high-pass filter of the Daubechies-4 wavelet, with the
double-precision constants pywt stores for db4. -/
def db4_dec_hi : List ℝ :=
  [-0.23037781330885523, 0.7148465705525415, -0.6308807679295904,
   -0.02798376941698385, 0.18703481171888114, 0.030841381835986965,
   -0.032883011666982945, -0.010597401784997278]

/-- Value at extended position t of the pywt periodized extension of the
signal x (0 for an empty signal, which pywt rejects).  The source calls
pywt.wavedec(data, db4, 5), and the third positional parameter of wavedec
is the extension mode: the integer 5 is the periodization entry of pywt's
extension-mode enumeration, not a level.  In periodization mode an
odd-length signal is first extended by repeating its last sample, and the
resulting even-length signal is extended periodically. -/
def per_ext (x : List ℝ) (t : ℤ) : ℝ :=
  if x.isEmpty then 0
  else if (t % ((x.length + x.length % 2 : ℕ) : ℤ)).toNat < x.length then
    x.getD (t % ((x.length + x.length % 2 : ℕ) : ℤ)).toNat 0
  else x.getD (x.length - 1) 0

/-- One analysis step of pywt dwt in periodization mode with an 8-tap
decomposition filter f: correlate the periodized extension of x with f
and downsample by two.  The output length (x.length + 1) / 2 is pywt
dwt_coeff_len in periodization mode (the ceiling of half the length). -/
def dwt_step (f : List ℝ) (x : List ℝ) : List ℝ :=
  (List.range ((x.length + 1) / 2)).map fun (i : ℕ) =>
    ((List.range 8).map fun (j : ℕ) =>
      f.getD j 0 * per_ext x (2 * (i : ℤ) + 1 - (j : ℤ))).sum

/-- pywt.dwt_max_level: the decomposition level pywt.wavedec uses when no
level is passed: 0 when the data is shorter than filter length - 1, and
otherwise the floor of the base-2 logarithm of
data_len / (filter_len - 1). -/
def dwt_max_level (data_len filter_len : ℕ) : ℕ :=
  if filter_len ≤ 1 ∨ data_len < filter_len - 1 then 0
  else Nat.log 2 (data_len / (filter_len - 1))

/-- The wavedec recursion at a given level: the level-l result is the
list [cA_l, cD_l, ..., cD_1] of one final approximation followed by the
detail coefficient sets ordered coarsest to finest, each step using the
db4 analysis filters in periodization mode. -/
def wavedec_levels : List ℝ → ℕ → List (List ℝ)
  | data, 0 => [data]
  | data, (l + 1) =>
      wavedec_levels (dwt_step db4_dec_lo data) l ++ [dwt_step db4_dec_hi data]

/-- pywt.wavedec(data, db4, 5) as the source calls it: the positional 5
fills the mode parameter (periodization), so the level argument keeps its
default and wavedec decomposes dwt_max_level (len data) 8 times.  For the
256-sample epochs of the surrounding pipeline that level is 5. -/
def wavedec (data : List ℝ) : List (List ℝ) :=
  wavedec_levels data (dwt_max_level data.length 8)

/-- The approximation chain of the db4 analysis filter bank: m low-pass
analysis steps applied to data. -/
def approx : List ℝ → ℕ → List ℝ
  | data, 0 => data
  | data, (m + 1) => approx (dwt_step db4_dec_lo data) m

/-- The level-j detail coefficient set of the db4 analysis filter bank:
one high-pass step after j - 1 low-pass steps. -/
def detail (data : List ℝ) (j : ℕ) : List ℝ :=
  dwt_step db4_dec_hi (approx data (j - 1))

/-- numpy.sum of numpy.abs of a vector. -/
def np_abs_sum (l : List ℝ) : ℝ := (l.map fun t => |t|).sum

/-- extract_log_sum_wavelets of feature_extraction.py: the log-transformed
absolute sums of the detail sets of the db4 wavedec of data (the
approximation coefficients[0] is skipped), with the entry at index 1
deleted (the comment in the source: drop scale 4).  The number of detail
sets is the data-dependent wavedec level; it is 5 for the 256-sample
epochs of the pipeline.  When fewer than two detail sets exist the python
del statement raises IndexError, where the total eraseIdx leaves the list
unchanged. -/
def extract_log_sum_wavelets (data : List ℝ) : List ℝ :=
  (((wavedec data).drop 1).map fun x => Real.log (np_abs_sum x)).eraseIdx 1

/-- numpy.sum of numpy.square of a vector. -/
def np_sum_square (l : List ℝ) : ℝ := (l.map fun x => x ^ 2).sum

/-- extract_power of feature_extraction.py: the power of the first
band-limited signal raised to the 0.1 power, and the ratio of the two
powers, where power is the sum of squared samples. -/
def extract_power (data_bp1_30 data_bp3_12 : List ℝ) : List ℝ :=
  let power1_30 := np_sum_square data_bp1_30
  let power3_12 := np_sum_square data_bp3_12
  [power1_30 ^ (0.1 : ℝ), power3_12 / power1_30]

/-- Cross-correlation sums of numpy.correlate in its default valid mode
for a at least as long as v: entry k is the inner product of v with the
window of a starting at k. -/
def np_correlate_valid (a v : List ℝ) : List ℝ :=
  (List.range (a.length - v.length + 1)).map fun k =>
    ((List.range v.length).map fun j => a.getD (k + j) 0 * v.getD j 0).sum

/-- numpy.correlate in its default valid mode; when the first argument is
the shorter one numpy swaps the arguments and reverses the result (the
inputs here are real, so the conjugation numpy also applies is the
identity).  Both call sites in the source pass equal-length vectors. -/
def np_correlate (a v : List ℝ) : List ℝ :=
  if a.length < v.length then (np_correlate_valid v a).reverse
  else np_correlate_valid a v

/-- extract_correlate of feature_extraction.py: the first entry of the
cross-correlation of the two epochs raised to the 0.5 power, and the first
entry of the cross-correlation of the two band-limited signals squared. -/
def extract_correlate (data data1 data_bp1_30 data_bp3_12 : List ℝ) : List ℝ :=
  [(np_correlate data data1).getD 0 0 ^ (0.5 : ℝ),
   (np_correlate data_bp1_30 data_bp3_12).getD 0 0 ^ 2]

/-- numpy.mean of a real vector. -/
def list_mean (l : List ℝ) : ℝ := l.sum / l.length

/-- Discrete Fourier transform of a complex vector. -/
def dft (x : List ℂ) : List ℂ :=
  (List.range x.length).map fun (k : ℕ) =>
    ((List.range x.length).map fun (j : ℕ) =>
      x.getD j 0 * Complex.exp (-(2 * (Real.pi : ℂ) * Complex.I * (k : ℂ) * (j : ℂ) / (x.length : ℂ)))).sum

/-- Inverse discrete Fourier transform of a complex vector. -/
def idft (x : List ℂ) : List ℂ :=
  (List.range x.length).map fun (k : ℕ) =>
    ((List.range x.length).map fun (j : ℕ) =>
      x.getD j 0 * Complex.exp (2 * (Real.pi : ℂ) * Complex.I * (k : ℂ) * (j : ℂ) / (x.length : ℂ))).sum
      / (x.length : ℂ)

/-- Frequency-domain gain scipy.signal.hilbert applies at bin k of an
n-point transform: 1 at DC and (for even n) at Nyquist, 2 on the positive
frequencies, 0 on the negative frequencies. -/
def hilbert_gain (n k : ℕ) : ℝ :=
  if k = 0 then 1 else if 2 * k < n then 2 else if 2 * k = n then 1 else 0

/-- scipy.signal.hilbert: the analytic signal of a real vector, computed
by scaling its DFT with hilbert_gain and transforming back. -/
def hilbert (x : List ℝ) : List ℂ :=
  let X := dft (x.map fun t => (t : ℂ))
  idft ((List.range X.length).map fun k => ((hilbert_gain x.length k : ℝ) : ℂ) * X.getD k 0)

/-- numpy.var of a complex vector: the mean of the squared moduli of the
deviations from the mean. -/
def np_var_complex (l : List ℂ) : ℝ :=
  (l.map fun z => Complex.abs (z - l.sum / (l.length : ℂ)) ^ 2).sum / (l.length : ℝ)

/-- extract_phase of feature_extraction.py: numpy.var of the analytic
signal of the mean-centred epoch. -/
def extract_phase (data : List ℝ) : ℝ :=
  np_var_complex (hilbert (data.map fun t => t - list_mean data))

/-- numpy.var of a real vector: the mean of the squared deviations from
the mean. -/
def np_var (l : List ℝ) : ℝ :=
  (l.map fun x => (x - list_mean l) ^ 2).sum / (l.length : ℝ)

/-- The matrix numpy.outer u v the source builds as cov_mat, read as a
square matrix of dimension u.length (both call-site arguments have equal
length, so numpy's u.length times v.length outer product is square). -/
def cov_mat (u v : List ℝ) : Matrix (Fin u.length) (Fin u.length) ℝ :=
  Matrix.of fun i j => u.getD i 0 * v.getD j 0

open Classical in
/-- The inverse covariance the source obtains in its try block:
numpy.linalg.inv of cov_mat when that matrix is square and invertible;
numpy.linalg.inv raises LinAlgError otherwise, and the except branch
substitutes the identity numpy.eye (len u). -/
def inv_cov (u v : List ℝ) : Matrix (Fin u.length) (Fin u.length) ℝ :=
  if v.length = u.length ∧ IsUnit (cov_mat u v).det then (cov_mat u v)⁻¹ else 1

/-- scipy.spatial.distance.mahalanobis u v vi: the square root of the
quadratic form of the difference u - v under vi. -/
def mahalanobis_dist (u v : List ℝ) (vi : Matrix (Fin u.length) (Fin u.length) ℝ) : ℝ :=
  Real.sqrt (∑ i : Fin u.length, ∑ j : Fin u.length,
    (u.getD i 0 - v.getD i 0) * vi i j * (u.getD j 0 - v.getD j 0))

/-- extract_mahalanobis of feature_extraction.py: numpy.var of the single
scalar Mahalanobis distance between the two band-limited signals, raised
to the 0.25 power. -/
def extract_mahalanobis (u v : List ℝ) : ℝ :=
  np_var [mahalanobis_dist u v (inv_cov u v)] ^ (0.25 : ℝ)

/-- feature_extraction of feature_extraction.py: the features, in the
order wavelet block, 2 power, 2 correlation, 1 phase, 1 distance, wrapped
as a single-row list of lists.  For 256-sample epochs the wavelet block
has 4 entries and the row has 10. -/
def feature_extraction (data data1 : List ℝ) : List (List ℝ) :=
  [extract_log_sum_wavelets data ++
     extract_power (data_bp1_30 data) (data_bp3_12 data) ++
     extract_correlate data data1 (data_bp1_30 data) (data_bp3_12 data) ++
     [extract_phase data] ++
     [extract_mahalanobis (data_bp1_30 data) (data_bp3_12 data)]]

/-! Structural lemmas about the wavelet decomposition. -/

lemma wavedec_levels_length (data : List ℝ) (l : ℕ) :
    (wavedec_levels data l).length = l + 1 := by
  induction l generalizing data with
  | zero => rfl
  | succ n ih => simp [wavedec_levels, ih]

lemma wavedec_levels_five (data : List ℝ) :
    wavedec_levels data 5 =
      [approx data 5, detail data 5, detail data 4, detail data 3,
       detail data 2, detail data 1] := rfl

lemma dwt_max_level_256 : dwt_max_level 256 8 = 5 := by
  unfold dwt_max_level
  rw [if_neg (by norm_num)]
  exact Nat.log_eq_of_pow_le_of_lt_pow (by norm_num) (by norm_num)

lemma wavedec_of_length_256 (data : List ℝ) (h : data.length = 256) :
    wavedec data =
      [approx data 5, detail data 5, detail data 4, detail data 3,
       detail data 2, detail data 1] := by
  unfold wavedec
  rw [h, dwt_max_level_256]
  exact wavedec_levels_five data

lemma extract_wavelets_eq (data : List ℝ) (h : data.length = 256) :
    extract_log_sum_wavelets data =
      [Real.log (np_abs_sum (detail data 5)), Real.log (np_abs_sum (detail data 3)),
       Real.log (np_abs_sum (detail data 2)), Real.log (np_abs_sum (detail data 1))] := by
  rw [extract_log_sum_wavelets, wavedec_of_length_256 data h]
  rfl

lemma feature_head (data data1 : List ℝ) :
    (feature_extraction data data1).getD 0 [] =
      extract_log_sum_wavelets data ++
        extract_power (data_bp1_30 data) (data_bp3_12 data) ++
        extract_correlate data data1 (data_bp1_30 data) (data_bp3_12 data) ++
        [extract_phase data] ++
        [extract_mahalanobis (data_bp1_30 data) (data_bp3_12 data)] := rfl

lemma feature_list (data data1 : List ℝ) (h : data.length = 256) :
    (feature_extraction data data1).getD 0 [] =
      [Real.log (np_abs_sum (detail data 5)), Real.log (np_abs_sum (detail data 3)),
       Real.log (np_abs_sum (detail data 2)), Real.log (np_abs_sum (detail data 1)),
       np_sum_square (data_bp1_30 data) ^ (0.1 : ℝ),
       np_sum_square (data_bp3_12 data) / np_sum_square (data_bp1_30 data),
       (np_correlate data data1).getD 0 0 ^ (0.5 : ℝ),
       (np_correlate (data_bp1_30 data) (data_bp3_12 data)).getD 0 0 ^ 2,
       extract_phase data,
       extract_mahalanobis (data_bp1_30 data) (data_bp3_12 data)] := by
  rw [feature_head, extract_wavelets_eq data h]
  rfl

lemma sum_map_range_getD (l : List ℝ) (f : ℝ → ℝ) :
    ((List.range l.length).map fun i => f (l.getD i 0)).sum = (l.map f).sum := by
  induction l with
  | nil => simp
  | cons a t ih =>
    rw [List.length_cons, List.range_succ_eq_map, List.map_cons, List.map_map,
      List.sum_cons]
    have hc : ((fun i => f ((a :: t).getD i 0)) ∘ Nat.succ) = fun i => f (t.getD i 0) := by
      funext i; simp
    rw [hc, ih, List.map_cons, List.sum_cons, List.getD_cons_zero]

lemma np_var_singleton (x : ℝ) : np_var [x] = 0 := by
  simp [np_var, list_mean]

lemma extract_mahalanobis_eq_zero (u v : List ℝ) : extract_mahalanobis u v = 0 := by
  rw [extract_mahalanobis, np_var_singleton, Real.zero_rpow (by norm_num)]

/-- C1: for every pair of input epochs (the pipeline's epochs have 256
samples), feature_extraction returns a list containing exactly one list
of exactly 10 numbers, the concatenation, in fixed order, of the 4
wavelet features, 2 power features, 2 correlation features, 1 phase
feature and 1 distance feature. -/
theorem feature_vector_shape (data data1 : List ℝ) (h : data.length = 256) :
    (feature_extraction data data1).length = 1 ∧
    ((feature_extraction data data1).getD 0 []).length = 10 ∧
    (feature_extraction data data1).getD 0 [] =
      extract_log_sum_wavelets data ++
        extract_power (data_bp1_30 data) (data_bp3_12 data) ++
        extract_correlate data data1 (data_bp1_30 data) (data_bp3_12 data) ++
        [extract_phase data] ++
        [extract_mahalanobis (data_bp1_30 data) (data_bp3_12 data)] ∧
    (extract_log_sum_wavelets data).length = 4 ∧
    (extract_power (data_bp1_30 data) (data_bp3_12 data)).length = 2 ∧
    (extract_correlate data data1 (data_bp1_30 data) (data_bp3_12 data)).length = 2 := by
  refine ⟨rfl, ?_, rfl, ?_, rfl, rfl⟩
  · rw [feature_list data data1 h]; rfl
  · rw [extract_wavelets_eq data h]; rfl

theorem feature_vector_shape_witness :
    (List.replicate 256 (0 : ℝ)).length = 256 ∧
    (feature_extraction (List.replicate 256 (0 : ℝ)) []).length = 1 ∧
    ((feature_extraction (List.replicate 256 (0 : ℝ)) []).getD 0 []).length = 10 ∧
    (extract_log_sum_wavelets (List.replicate 256 (0 : ℝ))).length = 4 :=
  ⟨List.length_replicate _ _, (feature_vector_shape _ [] (List.length_replicate _ _)).1,
    (feature_vector_shape _ [] (List.length_replicate _ _)).2.1,
    (feature_vector_shape _ [] (List.length_replicate _ _)).2.2.2.1⟩

/-- C2: on an input epoch (256 samples, for which the data-dependent
wavedec level dwt_max_level 256 8 is 5) the wavelet sub-extractor
decomposes the epoch into one approximation set and five db4 detail sets
ordered coarsest to finest; it takes the natural log of the absolute sum
of each of the five detail sets, skipping the approximation, drops the
second of these five values, and returns exactly 4 values. -/
theorem wavelet_features_structure (data : List ℝ) (h : data.length = 256) :
    wavedec data =
      [approx data 5, detail data 5, detail data 4, detail data 3,
       detail data 2, detail data 1] ∧
    (wavedec data).length = 6 ∧
    extract_log_sum_wavelets data =
      [Real.log (np_abs_sum (detail data 5)), Real.log (np_abs_sum (detail data 3)),
       Real.log (np_abs_sum (detail data 2)), Real.log (np_abs_sum (detail data 1))] ∧
    (extract_log_sum_wavelets data).length = 4 := by
  refine ⟨wavedec_of_length_256 data h, ?_, extract_wavelets_eq data h, ?_⟩
  · rw [wavedec_of_length_256 data h]; rfl
  · rw [extract_wavelets_eq data h]; rfl

theorem wavelet_features_structure_witness :
    (List.replicate 256 (0 : ℝ)).length = 256 ∧
    (wavedec (List.replicate 256 (0 : ℝ))).length = 6 ∧
    (extract_log_sum_wavelets (List.replicate 256 (0 : ℝ))).length = 4 :=
  ⟨List.length_replicate _ _, (wavelet_features_structure _ (List.length_replicate _ _)).2.1,
    (wavelet_features_structure _ (List.length_replicate _ _)).2.2.2⟩

/-- C4: on a 256-sample epoch, output index 4 is the sum of squared
samples of the first band-limited signal raised to the 0.1 power, and
output index 5 is the sum of squared samples of the second band-limited
signal divided by that of the first; the division is the unguarded total
division of the ring, with no error branch. -/
theorem power_features_formula (data data1 : List ℝ) (h : data.length = 256) :
    ((feature_extraction data data1).getD 0 []).getD 4 0 =
      np_sum_square (data_bp1_30 data) ^ (0.1 : ℝ) ∧
    ((feature_extraction data data1).getD 0 []).getD 5 0 =
      np_sum_square (data_bp3_12 data) / np_sum_square (data_bp1_30 data) := by
  rw [feature_list data data1 h]
  exact ⟨rfl, rfl⟩

theorem power_features_formula_witness :
    (List.replicate 256 (0 : ℝ)).length = 256 ∧
    (((feature_extraction (List.replicate 256 (0 : ℝ)) []).getD 0 []).getD 4 0 =
      np_sum_square (data_bp1_30 (List.replicate 256 (0 : ℝ))) ^ (0.1 : ℝ) ∧
    ((feature_extraction (List.replicate 256 (0 : ℝ)) []).getD 0 []).getD 5 0 =
      np_sum_square (data_bp3_12 (List.replicate 256 (0 : ℝ))) /
        np_sum_square (data_bp1_30 (List.replicate 256 (0 : ℝ)))) :=
  ⟨List.length_replicate _ _, power_features_formula _ [] (List.length_replicate _ _)⟩

/-- C5: the distance feature is the variance of the single scalar
Mahalanobis distance raised to the 0.25 power, and the variance of one
scalar is zero, so extract_mahalanobis returns 0 on every input and, on a
256-sample epoch, the tenth output (index 9) is 0. -/
theorem distance_feature_zero (data data1 u v : List ℝ) (h : data.length = 256) :
    extract_mahalanobis u v = 0 ∧
    ((feature_extraction data data1).getD 0 []).getD 9 0 = 0 := by
  refine ⟨extract_mahalanobis_eq_zero u v, ?_⟩
  rw [feature_list data data1 h]
  exact extract_mahalanobis_eq_zero _ _

theorem distance_feature_zero_witness :
    (List.replicate 256 (0 : ℝ)).length = 256 ∧
    (extract_mahalanobis [] [] = 0 ∧
    ((feature_extraction (List.replicate 256 (0 : ℝ)) []).getD 0 []).getD 9 0 = 0) :=
  ⟨List.length_replicate _ _, distance_feature_zero _ [] [] [] (List.length_replicate _ _)⟩

/-- C7: when the current and the next epoch are the same 256-sample
epoch, the first correlation feature (output index 6) is the square root
of the sum of squares of the epoch's samples, the zero-lag
cross-correlation of equal-length series being their inner product. -/
theorem correlation_identical_epochs (data : List ℝ) (h : data.length = 256) :
    ((feature_extraction data data).getD 0 []).getD 6 0 =
      Real.sqrt ((data.map fun x => x ^ 2).sum) := by
  have h6 : ((feature_extraction data data).getD 0 []).getD 6 0 =
      (np_correlate data data).getD 0 0 ^ (0.5 : ℝ) := by
    rw [feature_list data data h]
    rfl
  rw [h6, np_correlate, if_neg (lt_irrefl _), np_correlate_valid, Nat.sub_self]
  rw [show List.range (0 + 1) = [0] from rfl, List.map_cons, List.map_nil,
    List.getD_cons_zero]
  have h1 : (((List.range data.length).map fun j =>
      data.getD (0 + j) 0 * data.getD j 0)).sum = (data.map fun x => x ^ 2).sum := by
    rw [show (fun j => data.getD (0 + j) 0 * data.getD j 0) =
        fun j => (fun x => x ^ 2) (data.getD j 0) from by
      funext j; rw [zero_add, ← pow_two]]
    exact sum_map_range_getD data fun x => x ^ 2
  rw [h1, show (0.5 : ℝ) = 1 / 2 from by norm_num, ← Real.sqrt_eq_rpow]

theorem correlation_identical_epochs_witness :
    (List.replicate 256 (1 : ℝ)).length = 256 ∧
    ((feature_extraction (List.replicate 256 (1 : ℝ))
        (List.replicate 256 (1 : ℝ))).getD 0 []).getD 6 0 =
      Real.sqrt (((List.replicate 256 (1 : ℝ)).map fun x => x ^ 2).sum) :=
  ⟨List.length_replicate _ _, correlation_identical_epochs _ (List.length_replicate _ _)⟩

/-- C10: only the first correlation feature (output index 6) depends on
the next epoch: for every 256-sample current epoch and every two choices
of the next epoch, the other nine output entries coincide. -/
theorem next_epoch_influence (data data1 data1' : List ℝ) (h : data.length = 256) :
    ((feature_extraction data data1).getD 0 []).take 6 =
      ((feature_extraction data data1').getD 0 []).take 6 ∧
    ((feature_extraction data data1).getD 0 []).drop 7 =
      ((feature_extraction data data1').getD 0 []).drop 7 := by
  rw [feature_list data data1 h, feature_list data data1' h]
  exact ⟨rfl, rfl⟩

theorem next_epoch_influence_witness :
    (List.replicate 256 (0 : ℝ)).length = 256 ∧
    (((feature_extraction (List.replicate 256 (0 : ℝ)) []).getD 0 []).take 6 =
      ((feature_extraction (List.replicate 256 (0 : ℝ)) [1]).getD 0 []).take 6 ∧
    ((feature_extraction (List.replicate 256 (0 : ℝ)) []).getD 0 []).drop 7 =
      ((feature_extraction (List.replicate 256 (0 : ℝ)) [1]).getD 0 []).drop 7) :=
  ⟨List.length_replicate _ _, next_epoch_influence _ [] [1] (List.length_replicate _ _)⟩

/-! The inversion fallback of extract_mahalanobis. -/

lemma cov_mat_ones_det : (cov_mat [(1:ℝ), 1] [1, 1]).det = 0 := by
  have h01 : (⟨0, by norm_num⟩ : Fin ([(1:ℝ), 1].length)) ≠ ⟨1, by norm_num⟩ := by
    intro h
    simpa using congrArg Fin.val h
  refine Matrix.det_zero_of_row_eq h01 ?_
  funext j
  simp [cov_mat]

lemma cov_mat_ones_not_unit : ¬ IsUnit (cov_mat [(1:ℝ), 1] [1, 1]).det := by
  rw [cov_mat_ones_det]
  simp

/-- C6: when the outer-product matrix is singular (equivalently, when
numpy.linalg.inv raises LinAlgError), the inverse covariance used by the
distance feature is the identity matrix of dimension equal to the length
of the first band-limited signal, so a singular outer product never
escapes the except branch. -/
theorem singular_fallback (u v : List ℝ) (h : ¬ IsUnit (cov_mat u v).det) :
    inv_cov u v = (1 : Matrix (Fin u.length) (Fin u.length) ℝ) := by
  unfold inv_cov
  rw [if_neg fun hc => h hc.2]

theorem singular_fallback_witness :
    ¬ IsUnit (cov_mat [(1:ℝ), 1] [1, 1]).det ∧
      inv_cov [(1:ℝ), 1] [1, 1] = 1 :=
  ⟨cov_mat_ones_not_unit, singular_fallback _ _ cov_mat_ones_not_unit⟩

/-! Amplitude-scaling lemmas for the power features. -/

lemma getD_map_mul (k : ℝ) (l : List ℝ) (i : ℕ) :
    (l.map fun x => k * x).getD i 0 = k * l.getD i 0 := by
  induction l generalizing i with
  | nil => simp
  | cons a t ih =>
    cases i with
    | zero => simp
    | succ n => simpa using ih n

lemma np_convolve_smul (k : ℝ) (data ker : List ℝ) :
    np_convolve (data.map fun x => k * x) ker =
      (np_convolve data ker).map fun x => k * x := by
  unfold np_convolve
  rw [List.length_map, List.map_map]
  refine List.map_congr_left fun t _ => ?_
  simp only [Function.comp_apply]
  rw [← List.sum_map_mul_left]
  refine congrArg List.sum (List.map_congr_left fun i _ => ?_)
  rw [getD_map_mul]
  ring

lemma np_sum_square_smul (k : ℝ) (l : List ℝ) :
    np_sum_square (l.map fun x => k * x) = k ^ 2 * np_sum_square l := by
  unfold np_sum_square
  rw [List.map_map, ← List.sum_map_mul_left]
  refine congrArg List.sum (List.map_congr_left fun x _ => ?_)
  simp only [Function.comp_apply]
  ring

lemma np_sum_square_nonneg (l : List ℝ) : 0 ≤ np_sum_square l := by
  unfold np_sum_square
  apply List.sum_nonneg
  intro x hx
  obtain ⟨y, _, rfl⟩ := List.mem_map.mp hx
  positivity

lemma data_bp1_30_smul (k : ℝ) (data : List ℝ) :
    data_bp1_30 (data.map fun x => k * x) = (data_bp1_30 data).map fun x => k * x :=
  np_convolve_smul k data _

lemma data_bp3_12_smul (k : ℝ) (data : List ℝ) :
    data_bp3_12 (data.map fun x => k * x) = (data_bp3_12 data).map fun x => k * x :=
  np_convolve_smul k data _

lemma feature_getD4 (d d1 : List ℝ) (h : d.length = 256) :
    ((feature_extraction d d1).getD 0 []).getD 4 0 =
      np_sum_square (data_bp1_30 d) ^ (0.1 : ℝ) := by
  rw [feature_list d d1 h]
  rfl

lemma feature_getD5 (d d1 : List ℝ) (h : d.length = 256) :
    ((feature_extraction d d1).getD 0 []).getD 5 0 =
      np_sum_square (data_bp3_12 d) / np_sum_square (data_bp1_30 d) := by
  rw [feature_list d d1 h]
  rfl

/-- C8: scaling a 256-sample epoch's samples by a positive constant k
multiplies the power feature (output index 4) by k to the 0.2 power and
leaves the power-ratio feature (output index 5) unchanged, since
convolution is linear and power scales by k squared. -/
theorem power_scaling (k : ℝ) (data data1 : List ℝ) (hk : 0 < k)
    (h : data.length = 256) :
    ((feature_extraction (data.map fun x => k * x) data1).getD 0 []).getD 4 0 =
      k ^ (0.2 : ℝ) * ((feature_extraction data data1).getD 0 []).getD 4 0 ∧
    ((feature_extraction (data.map fun x => k * x) data1).getD 0 []).getD 5 0 =
      ((feature_extraction data data1).getD 0 []).getD 5 0 := by
  have h' : (data.map fun x => k * x).length = 256 := by
    rw [List.length_map]; exact h
  constructor
  · rw [feature_getD4 _ data1 h', feature_getD4 _ data1 h, data_bp1_30_smul,
      np_sum_square_smul]
    rw [Real.mul_rpow (by positivity) (np_sum_square_nonneg _)]
    congr 1
    rw [← Real.rpow_natCast k 2, ← Real.rpow_mul hk.le]
    norm_num
  · rw [feature_getD5 _ data1 h', feature_getD5 _ data1 h, data_bp1_30_smul,
      data_bp3_12_smul, np_sum_square_smul, np_sum_square_smul]
    rw [mul_div_mul_left _ _ (pow_ne_zero 2 hk.ne')]

theorem power_scaling_witness :
    0 < (2:ℝ) ∧ (List.replicate 256 (1 : ℝ)).length = 256 ∧
    (((feature_extraction ((List.replicate 256 (1 : ℝ)).map fun x => 2 * x) []).getD
        0 []).getD 4 0 =
      (2:ℝ) ^ (0.2 : ℝ) *
        ((feature_extraction (List.replicate 256 (1 : ℝ)) []).getD 0 []).getD 4 0 ∧
    ((feature_extraction ((List.replicate 256 (1 : ℝ)).map fun x => 2 * x) []).getD
        0 []).getD 5 0 =
      ((feature_extraction (List.replicate 256 (1 : ℝ)) []).getD 0 []).getD 5 0) :=
  ⟨by norm_num, List.length_replicate _ _, power_scaling 2 _ [] (by norm_num) (List.length_replicate _ _)⟩

/-! Linearity of the wavelet analysis in the input signal. -/

lemma per_ext_map_mul (k : ℝ) (l : List ℝ) (t : ℤ) :
    per_ext (l.map fun x => k * x) t = k * per_ext l t := by
  have hie : ∀ (f : ℝ → ℝ) (l' : List ℝ), (l'.map f).isEmpty = l'.isEmpty := by
    intro f l'
    cases l' <;> rfl
  unfold per_ext
  rw [hie, List.length_map]
  split
  · exact (mul_zero k).symm
  · split
    · exact getD_map_mul k l _
    · exact getD_map_mul k l _

lemma dwt_step_smul (k : ℝ) (f l : List ℝ) :
    dwt_step f (l.map fun x => k * x) = (dwt_step f l).map fun x => k * x := by
  unfold dwt_step
  rw [List.length_map, List.map_map]
  refine List.map_congr_left fun i _ => ?_
  simp only [Function.comp_apply]
  rw [← List.sum_map_mul_left]
  refine congrArg List.sum (List.map_congr_left fun j _ => ?_)
  rw [per_ext_map_mul]
  ring

lemma approx_smul (k : ℝ) (m : ℕ) (l : List ℝ) :
    approx (l.map fun x => k * x) m = (approx l m).map fun x => k * x := by
  induction m generalizing l with
  | zero => rfl
  | succ n ih =>
    show approx (dwt_step db4_dec_lo (l.map fun x => k * x)) n = _
    rw [dwt_step_smul, ih]
    rfl

lemma detail_smul (k : ℝ) (j : ℕ) (l : List ℝ) :
    detail (l.map fun x => k * x) j = (detail l j).map fun x => k * x := by
  unfold detail
  rw [approx_smul, dwt_step_smul]

lemma np_abs_sum_smul (k : ℝ) (hk : 0 ≤ k) (l : List ℝ) :
    np_abs_sum (l.map fun x => k * x) = k * np_abs_sum l := by
  unfold np_abs_sum
  rw [List.map_map, ← List.sum_map_mul_left]
  refine congrArg List.sum (List.map_congr_left fun x _ => ?_)
  simp only [Function.comp_apply]
  rw [abs_mul, abs_of_nonneg hk]

/-- C9: for every positive k and every 256-sample epoch whose used
detail-band absolute sums are positive, scaling the epoch's samples by k
shifts each of the four wavelet log-sum features by exactly log k, the
wavelet transform being linear. -/
theorem wavelet_log_shift (k : ℝ) (data : List ℝ) (hk : 0 < k)
    (h : data.length = 256)
    (h5 : 0 < np_abs_sum (detail data 5)) (h3 : 0 < np_abs_sum (detail data 3))
    (h2 : 0 < np_abs_sum (detail data 2)) (h1 : 0 < np_abs_sum (detail data 1)) :
    extract_log_sum_wavelets (data.map fun x => k * x) =
      (extract_log_sum_wavelets data).map fun v => Real.log k + v := by
  have h' : (data.map fun x => k * x).length = 256 := by
    rw [List.length_map]; exact h
  rw [extract_wavelets_eq _ h', extract_wavelets_eq _ h]
  rw [detail_smul, detail_smul, detail_smul, detail_smul]
  rw [np_abs_sum_smul k hk.le, np_abs_sum_smul k hk.le, np_abs_sum_smul k hk.le,
    np_abs_sum_smul k hk.le]
  rw [Real.log_mul hk.ne' h5.ne', Real.log_mul hk.ne' h3.ne',
    Real.log_mul hk.ne' h2.ne', Real.log_mul hk.ne' h1.ne']
  rfl

/-! Concrete evaluation of the detail bands of the constant 256-sample
epoch, used to discharge the positivity hypotheses of wavelet_log_shift. -/

lemma getD_replicate_of_lt (n i : ℕ) (c : ℝ) (h : i < n) :
    (List.replicate n c).getD i 0 = c := by
  rw [List.getD_eq_getElem?_getD, List.getElem?_replicate, if_pos h]
  rfl

lemma per_ext_replicate (n : ℕ) (c : ℝ) (t : ℤ) (hn : 0 < n) :
    per_ext (List.replicate n c) t = c := by
  have he : (List.replicate n c).isEmpty = false := by
    obtain ⟨m, rfl⟩ : ∃ m, n = m + 1 := ⟨n - 1, by omega⟩
    rw [List.replicate_succ]
    rfl
  unfold per_ext
  rw [he]
  simp only [Bool.false_eq_true, if_false, List.length_replicate]
  split
  · next hlt => exact getD_replicate_of_lt _ _ _ hlt
  · next => exact getD_replicate_of_lt _ _ _ (by omega)

lemma dwt_step_replicate (f : List ℝ) (n : ℕ) (c : ℝ) (hn : 0 < n) :
    dwt_step f (List.replicate n c) =
      List.replicate ((n + 1) / 2) (((List.range 8).map fun j => f.getD j 0).sum * c) := by
  unfold dwt_step
  rw [List.length_replicate]
  have hent : ∀ i : ℕ, ((List.range 8).map fun j =>
      f.getD j 0 * per_ext (List.replicate n c) (2 * (i : ℤ) + 1 - (j : ℤ))).sum =
      ((List.range 8).map fun j => f.getD j 0).sum * c := by
    intro i
    rw [← List.sum_map_mul_right]
    refine congrArg List.sum (List.map_congr_left fun j _ => ?_)
    rw [per_ext_replicate _ _ _ hn]
  refine ((List.map_congr_left fun i _ => hent i).trans ?_)
  rw [List.map_const', List.length_range]

lemma np_abs_sum_replicate (m : ℕ) (v : ℝ) :
    np_abs_sum (List.replicate m v) = m * |v| := by
  unfold np_abs_sum
  rw [List.map_replicate, List.sum_replicate, nsmul_eq_mul]

lemma sum_lo_ne : ((List.range 8).map fun j => db4_dec_lo.getD j 0).sum ≠ 0 := by
  rw [show ((List.range 8).map fun j => db4_dec_lo.getD j 0) = db4_dec_lo from rfl]
  unfold db4_dec_lo
  simp only [List.sum_cons, List.sum_nil]
  norm_num

lemma sum_hi_ne : ((List.range 8).map fun j => db4_dec_hi.getD j 0).sum ≠ 0 := by
  rw [show ((List.range 8).map fun j => db4_dec_hi.getD j 0) = db4_dec_hi from rfl]
  unfold db4_dec_hi
  simp only [List.sum_cons, List.sum_nil]
  norm_num

lemma approx_succ (data : List ℝ) (m : ℕ) :
    approx data (m + 1) = dwt_step db4_dec_lo (approx data m) := by
  induction m generalizing data with
  | zero => rfl
  | succ n ih =>
    show approx (dwt_step db4_dec_lo data) (n + 1) = _
    rw [ih]
    rfl

lemma approx_succ' (data : List ℝ) (n m : ℕ) (h : n = m + 1) :
    approx data n = dwt_step db4_dec_lo (approx data m) := by
  subst h
  exact approx_succ data m

lemma approx_const_1 :
    approx (List.replicate 256 (1 : ℝ)) 1 =
      List.replicate 128 (((List.range 8).map fun j => db4_dec_lo.getD j 0).sum * 1) := by
  rw [approx_succ' _ 1 0 rfl,
    show approx (List.replicate 256 (1 : ℝ)) 0 = List.replicate 256 (1 : ℝ) from rfl,
    dwt_step_replicate _ _ _ (by norm_num)]

lemma approx_const_2 :
    approx (List.replicate 256 (1 : ℝ)) 2 =
      List.replicate 64 (((List.range 8).map fun j => db4_dec_lo.getD j 0).sum *
        (((List.range 8).map fun j => db4_dec_lo.getD j 0).sum * 1)) := by
  rw [approx_succ' _ 2 1 rfl, approx_const_1,
    dwt_step_replicate _ _ _ (by norm_num)]

lemma approx_const_3 :
    approx (List.replicate 256 (1 : ℝ)) 3 =
      List.replicate 32 (((List.range 8).map fun j => db4_dec_lo.getD j 0).sum *
        (((List.range 8).map fun j => db4_dec_lo.getD j 0).sum *
          (((List.range 8).map fun j => db4_dec_lo.getD j 0).sum * 1))) := by
  rw [approx_succ' _ 3 2 rfl, approx_const_2,
    dwt_step_replicate _ _ _ (by norm_num)]

lemma approx_const_4 :
    approx (List.replicate 256 (1 : ℝ)) 4 =
      List.replicate 16 (((List.range 8).map fun j => db4_dec_lo.getD j 0).sum *
        (((List.range 8).map fun j => db4_dec_lo.getD j 0).sum *
          (((List.range 8).map fun j => db4_dec_lo.getD j 0).sum *
            (((List.range 8).map fun j => db4_dec_lo.getD j 0).sum * 1)))) := by
  rw [approx_succ' _ 4 3 rfl, approx_const_3,
    dwt_step_replicate _ _ _ (by norm_num)]

lemma abs_detail_pos_1 : 0 < np_abs_sum (detail (List.replicate 256 (1 : ℝ)) 1) := by
  show 0 < np_abs_sum (dwt_step db4_dec_hi (approx (List.replicate 256 (1 : ℝ)) 0))
  rw [show approx (List.replicate 256 (1 : ℝ)) 0 = List.replicate 256 (1 : ℝ) from rfl,
    dwt_step_replicate _ _ _ (by norm_num), np_abs_sum_replicate]
  refine mul_pos (by norm_num) (abs_pos.mpr ?_)
  exact mul_ne_zero sum_hi_ne one_ne_zero

lemma abs_detail_pos_2 : 0 < np_abs_sum (detail (List.replicate 256 (1 : ℝ)) 2) := by
  show 0 < np_abs_sum (dwt_step db4_dec_hi (approx (List.replicate 256 (1 : ℝ)) 1))
  rw [approx_const_1, dwt_step_replicate _ _ _ (by norm_num), np_abs_sum_replicate]
  refine mul_pos (by norm_num) (abs_pos.mpr ?_)
  exact mul_ne_zero sum_hi_ne (mul_ne_zero sum_lo_ne one_ne_zero)

lemma abs_detail_pos_3 : 0 < np_abs_sum (detail (List.replicate 256 (1 : ℝ)) 3) := by
  show 0 < np_abs_sum (dwt_step db4_dec_hi (approx (List.replicate 256 (1 : ℝ)) 2))
  rw [approx_const_2, dwt_step_replicate _ _ _ (by norm_num), np_abs_sum_replicate]
  refine mul_pos (by norm_num) (abs_pos.mpr ?_)
  exact mul_ne_zero sum_hi_ne (mul_ne_zero sum_lo_ne (mul_ne_zero sum_lo_ne one_ne_zero))

lemma abs_detail_pos_5 : 0 < np_abs_sum (detail (List.replicate 256 (1 : ℝ)) 5) := by
  show 0 < np_abs_sum (dwt_step db4_dec_hi (approx (List.replicate 256 (1 : ℝ)) 4))
  rw [approx_const_4, dwt_step_replicate _ _ _ (by norm_num), np_abs_sum_replicate]
  refine mul_pos (by norm_num) (abs_pos.mpr ?_)
  exact mul_ne_zero sum_hi_ne (mul_ne_zero sum_lo_ne (mul_ne_zero sum_lo_ne
    (mul_ne_zero sum_lo_ne (mul_ne_zero sum_lo_ne one_ne_zero))))

theorem wavelet_log_shift_witness :
    0 < (2 : ℝ) ∧ (List.replicate 256 (1 : ℝ)).length = 256 ∧
    0 < np_abs_sum (detail (List.replicate 256 (1 : ℝ)) 5) ∧
    0 < np_abs_sum (detail (List.replicate 256 (1 : ℝ)) 3) ∧
    0 < np_abs_sum (detail (List.replicate 256 (1 : ℝ)) 2) ∧
    0 < np_abs_sum (detail (List.replicate 256 (1 : ℝ)) 1) ∧
    extract_log_sum_wavelets ((List.replicate 256 (1 : ℝ)).map fun x => 2 * x) =
      (extract_log_sum_wavelets (List.replicate 256 (1 : ℝ))).map
        fun v => Real.log 2 + v :=
  ⟨by norm_num, List.length_replicate _ _, abs_detail_pos_5, abs_detail_pos_3, abs_detail_pos_2,
    abs_detail_pos_1,
    wavelet_log_shift 2 _ (by norm_num) (List.length_replicate _ _) abs_detail_pos_5 abs_detail_pos_3
      abs_detail_pos_2 abs_detail_pos_1⟩

/-! Band structure of the FIR kernels the source designs. -/

lemma firwin_length (numtaps : ℕ) (f1 f2 fs : ℝ) :
    (firwin numtaps f1 f2 fs).length = numtaps := by
  simp [firwin]

/-- C3: evaluation of the kernel-design call of the source.  The two
kernels do have length 467 and the full convolution does have length
epoch length + 466; but the band structure scipy.signal.firwin derives
for the call of the source (two cutoffs with the default
pass_zero = True) is the DC-passing band-stop pair [0, 1/64], [30/64, 1],
not the normalised band-pass [1/64, 30/64] that the docstrings and the
spec describe. -/
theorem firwin_call_is_bandstop :
    firwin_band_edges 1 30 128 = [(0, 1 / 64), (30 / 64, 1)] ∧
    firwin_band_edges 1 30 128 ≠ bandpass_band_edges 1 30 128 ∧
    firwin_band_edges 3 12 128 = [(0, 3 / 64), (12 / 64, 1)] ∧
    (firwin 467 1 30 128).length = 467 ∧
    (firwin 467 3 12 128).length = 467 ∧
    (∀ data : List ℝ, (data_bp1_30 data).length = data.length + 466) ∧
    (∀ data : List ℝ, (data_bp3_12 data).length = data.length + 466) := by
  refine ⟨?_, ?_, ?_, firwin_length 467 1 30 128, firwin_length 467 3 12 128, ?_, ?_⟩
  · unfold firwin_band_edges
    norm_num
  · simp [firwin_band_edges, bandpass_band_edges]
  · unfold firwin_band_edges
    norm_num
  · intro data
    unfold data_bp1_30 np_convolve
    rw [List.length_map, List.length_range, firwin_length]
    omega
  · intro data
    unfold data_bp3_12 np_convolve
    rw [List.length_map, List.length_range, firwin_length]
    omega

end Kjaer
